import Mathlib

/-!
# Verification of the ohlcv-poc trade ingestion pipeline

Shallow embedding of the synthetic-trade ingestion pipeline:
the trade model (`src/models/trade.model.ts`), the trade generator
(`src/services/trade-generator.service.ts`), the InfluxDB point mapping
(`src/repositories/influxdb.repository.ts`), the ingestion orchestrator
(`src/services/trade-ingestion.service.ts`) and the HTTP control layer's
start/stop guards (`src/api/routes.ts`).

JavaScript numbers are modelled as `ℚ`, millisecond epoch timestamps as `ℤ`
(a JS `Date` is `Option ℤ`, `none` standing for an invalid date), and the
ambient `Math.random()` stream as an explicit function `ℕ → ℚ` whose values
the theorems constrain to `[0, 1)`.
-/

namespace Ohlcv

/-! ## Trade model (trade.model.ts) -/

/-- The `TradeSide` enum. Member `BUY` has string value `'buy'`,
member `SELL` has string value `'sell'`. -/
inductive TradeSide where
  | buy
  | sell
deriving DecidableEq, Repr

/-- The string value of a `TradeSide` enum member (`'buy'` / `'sell'`),
which is what `trade.side` evaluates to at runtime. -/
def TradeSide.value : TradeSide → String
  | .buy => "buy"
  | .sell => "sell"

/-- The identifier of a `TradeSide` enum member (`BUY` / `SELL`). -/
def TradeSide.memberName : TradeSide → String
  | .buy => "BUY"
  | .sell => "SELL"

/-- The `Trade` interface: symbol, side, price, amount, timestamp.
`price` and `amount` are JS numbers (`ℚ`); the timestamp is a JS `Date`
(`some` ms-epoch when valid, `none` when invalid). -/
structure Trade where
  symbol : String
  side : TradeSide
  price : ℚ
  amount : ℚ
  timestamp : Option ℤ
deriving DecidableEq, Repr

/-- `!symbol || symbol.trim() === ''`: the string is empty or all
whitespace (`trim` removes exactly the leading and trailing whitespace,
so trimming to the empty string means every character is whitespace). -/
def isBlank (s : String) : Bool :=
  s.data.all fun c => c.isWhitespace

/-- `createTrade` from trade.model.ts: validates symbol (truthy and
non-blank after trim), `price > 0`, `amount > 0` and a valid timestamp,
in that order, then returns the five fields unchanged. The `side`
argument is never validated. -/
def createTrade (symbol : String) (side : TradeSide) (price amount : ℚ)
    (timestamp : Option ℤ) : Except String Trade :=
  if isBlank symbol then .error "Symbol is required"
  else if price ≤ 0 then .error "Price must be greater than zero"
  else if amount ≤ 0 then .error "Amount must be greater than zero"
  else if timestamp.isNone then .error "Valid timestamp is required"
  else .ok ⟨symbol, side, price, amount, timestamp⟩

/-! ## Trade generator (trade-generator.service.ts) -/

/-- `TradeGenerationConfig` from config.ts; `startTs`/`endTs` are
`startDate.getTime()` / `endDate.getTime()` in ms. -/
structure TradeGenerationConfig where
  totalTrades : ℤ
  batchSize : ℤ
  startTs : ℤ
  endTs : ℤ
  symbols : List String
deriving Repr

/-- The generator's mutable `baselinePrices : Map<string, number>`,
modelled as an insertion-ordered association list. -/
abbrev Baselines := List (String × ℚ)

/-- `Map.get`. -/
def mapGet (bl : Baselines) (k : String) : Option ℚ :=
  match bl with
  | [] => none
  | (k', v) :: rest => if k' = k then some v else mapGet rest k

/-- `Map.set`: replaces an existing binding in place, else appends. -/
def mapSet (bl : Baselines) (k : String) (v : ℚ) : Baselines :=
  match bl with
  | [] => [(k, v)]
  | (k', v') :: rest =>
      if k' = k then (k, v) :: rest else (k', v') :: mapSet rest k v

/-- `parseFloat(x.toFixed(2))`: rounding to 2 decimal places
(half-up on the exact rational model). -/
def round2 (q : ℚ) : ℚ := (⌊q * 100 + 1/2⌋ : ℚ) / 100

/-- The `this.baselinePrices.get(symbol) || 100` read: the stored
baseline, with `100` as default — JS `||` also maps a stored falsy `0`
to `100`. -/
def baselineOf (bl : Baselines) (symbol : String) : ℚ :=
  match mapGet bl symbol with
  | none => 100
  | some v => if v = 0 then 100 else v

/-- `generateRandomPrice` (trade-generator.service.ts lines 107-120):
reads the symbol's baseline, emits `round2 (b * (1 + variation))` with
`variation = (r1 - 0.5) * 0.1`, and overwrites the baseline with
`b * (1 + drift)` where `drift = (r2 - 0.5) * 0.01` — both computed
from the same pre-update baseline `b`. -/
def generateRandomPrice (bl : Baselines) (symbol : String) (r1 r2 : ℚ) :
    ℚ × Baselines :=
  let basePrice := baselineOf bl symbol
  let variation := (r1 - 1/2) * (1/10)
  let price := basePrice * (1 + variation)
  let drift := (r2 - 1/2) * (1/100)
  (round2 price, mapSet bl symbol (basePrice * (1 + drift)))

/-- `generateRandomAmount`: `Math.floor(Math.pow(r, 2) * 1000) + 1`. -/
def generateRandomAmount (r : ℚ) : ℚ := ((⌊r ^ 2 * 1000⌋ + 1 : ℤ) : ℚ)

/-- `generateRandomTimestamp` (lines 83-99): draws
`startTs + floor(r1 * timeRange)`, then `setUTCHours(14 + floor(r2*7))`,
`setUTCMinutes(floor(r3*60))`, `setUTCSeconds(floor(r4*60))`,
`setUTCMilliseconds(floor(r5*1000))` — i.e. the time-of-day of the drawn
instant is fully overwritten while its UTC day is kept. -/
def generateRandomTimestamp (startTs timeRange : ℤ)
    (r1 r2 r3 r4 r5 : ℚ) : ℤ :=
  let randomOffset : ℤ := ⌊r1 * (timeRange : ℚ)⌋
  let ts := startTs + randomOffset
  let dayStart := ts - ts % 86400000
  dayStart + 3600000 * (14 + ⌊r2 * 7⌋) + 60000 * ⌊r3 * 60⌋
    + 1000 * ⌊r4 * 60⌋ + ⌊r5 * 1000⌋

/-- One iteration of the `generateBatch` loop (lines 143-157): draws,
in source order, the symbol index, the side, the price (two draws),
the amount and the timestamp (five draws) from the random stream
starting at index `i`, then calls `createTrade` (whose exception
propagates out of the batch). -/
def generateTrade (cfg : TradeGenerationConfig) (rng : ℕ → ℚ)
    (bl : Baselines) (i : ℕ) : Except String (Trade × Baselines) :=
  let symbolIndex := (⌊rng i * (cfg.symbols.length : ℚ)⌋).toNat
  let symbol := cfg.symbols.getD symbolIndex ""
  let side := if rng (i+1) < 1/2 then TradeSide.buy else TradeSide.sell
  let pr := generateRandomPrice bl symbol (rng (i+2)) (rng (i+3))
  let amount := generateRandomAmount (rng (i+4))
  let ts := generateRandomTimestamp cfg.startTs (cfg.endTs - cfg.startTs)
    (rng (i+5)) (rng (i+6)) (rng (i+7)) (rng (i+8)) (rng (i+9))
  match createTrade symbol side pr.1 amount (some ts) with
  | .error e => .error e
  | .ok t => .ok (t, pr.2)

/-- The `generateBatch` loop, counting down the remaining iterations;
`i` is the current position in the random stream (10 draws per trade). -/
def generateBatchAux (cfg : TradeGenerationConfig) (rng : ℕ → ℚ) :
    ℕ → Baselines → ℕ → Except String (List Trade × Baselines)
  | 0, bl, _ => .ok ([], bl)
  | n + 1, bl, i =>
    match generateTrade cfg rng bl i with
    | .error e => .error e
    | .ok (t, bl') =>
      match generateBatchAux cfg rng n bl' (i + 10) with
      | .error e => .error e
      | .ok (ts, bl'') => .ok (t :: ts, bl'')

/-- `generateBatch(batchSize)` (lines 140-160): a `for` loop of
`batchSize` iterations (zero when `batchSize ≤ 0`), threading the
baseline-price table and returning the generated trades. -/
def generateBatch (cfg : TradeGenerationConfig) (rng : ℕ → ℚ)
    (batchSize : ℤ) (bl : Baselines) :
    Except String (List Trade × Baselines) :=
  generateBatchAux cfg rng batchSize.toNat bl 0

/-! ## InfluxDB point mapping (influxdb.repository.ts) -/

/-- An InfluxDB `Point` as assembled by `tradeToPoint`: measurement name,
tags, float fields, integer fields and the event time (ms, the write API
is created with `'ms'` precision). -/
structure Point where
  measurement : String
  tags : List (String × String)
  floatFields : List (String × ℚ)
  intFields : List (String × ℚ)
  time : Option ℤ
deriving DecidableEq, Repr

/-- The precision argument of `getWriteApi` (constructor, line 260). -/
def writePrecision : String := "ms"

/-- `tradeToPoint` (lines 269-278): one point per trade, measurement
`'trade'`, tag `symbol`, tag `side` (the enum's runtime string value),
float field `price`, int field `amount`, event time = the trade's
timestamp. -/
def tradeToPoint (t : Trade) : Point :=
  { measurement := "trade"
    tags := [("symbol", t.symbol), ("side", t.side.value)]
    floatFields := [("price", t.price)]
    intFields := [("amount", t.amount)]
    time := t.timestamp }

/-- `writeTrades` (lines 286-295): maps each trade of the batch to its
point (`trades.map(t => this.tradeToPoint(t))`) and writes them. -/
def writeTrades (trades : List Trade) : List Point :=
  trades.map tradeToPoint

/-! ## Ingestion orchestrator (trade-ingestion.service.ts)

`startIngestion` runs `while (processed < total && !isStopped)`,
each iteration calling `generateBatch` then awaiting `writeTrades`;
the only interleaving points of the single-threaded run are those
awaits, so external `stopIngestion()` calls are scheduled per
iteration (`stopsDuring k` = number of stop calls arriving while the
`k`-th write is awaited, each of which synchronously emits a
`stopped` event and sets `isStopped`). `writeErr k` is the outcome of
the `k`-th `writeTrades` call (`none` = resolves, `some e` = rejects
with error id `e`). -/

/-- Observable events of one run: the `generateBatch` / `writeTrades`
calls with their batch size and the emitted `progress` / `complete` /
`error` / `stopped` events. `complete` carries the literal payload
fields `processed`, `total`, `percentage` (hard-coded `100`) and
`estimatedRemainingMs` (hard-coded `0`). -/
inductive Ev where
  | gen (size : ℕ)
  | write (size : ℕ)
  | progress (processed total : ℕ)
  | complete (processed total percentage estimatedRemainingMs : ℕ)
  | error (e : ℕ)
  | stopped
deriving DecidableEq, Repr

/-- The environment of one `startIngestion()` invocation. -/
structure RunInput where
  total : ℕ
  batchSize : ℕ
  writeErr : ℕ → Option ℕ
  stopsDuring : ℕ → ℕ

/-- How the `startIngestion()` promise settles: resolves after the
`complete` emit, resolves after a cooperative stop, or rejects with the
caught error (re-thrown after the `error` emit). Each carries the final
value of the local `processedTrades` counter. `outOfFuel` marks fuel
exhaustion of the model and is unreachable for the runs the claims
quantify over. -/
inductive RunResult where
  | completed (processed : ℕ)
  | stoppedEarly (processed : ℕ)
  | failed (e : ℕ) (processed : ℕ)
  | outOfFuel
deriving DecidableEq, Repr

/-- The ingestion loop (lines 108-147). Per iteration `k`:
`size = min batchSize (total - processed)`, `generateBatch(size)`,
await `writeTrades` (during which `stopsDuring k` stop calls emit their
`stopped` events and set the flag), then on success advance `processed`
and emit `progress`, on rejection emit `error` and re-throw. After the
loop, `complete` is emitted only when the stop flag is still clear. -/
def runLoop (inp : RunInput) : ℕ → ℕ → ℕ → Bool → List Ev × RunResult
  | 0, _, _, _ => ([], RunResult.outOfFuel)
  | fuel + 1, processed, k, stopFlag =>
    if processed < inp.total ∧ stopFlag = false then
      let size := min inp.batchSize (inp.total - processed)
      let stopEvs := List.replicate (inp.stopsDuring k) Ev.stopped
      let stopFlag' := if inp.stopsDuring k = 0 then stopFlag else true
      match inp.writeErr k with
      | some e =>
        (Ev.gen size :: Ev.write size :: (stopEvs ++ [Ev.error e]),
          RunResult.failed e processed)
      | none =>
        let rest := runLoop inp fuel (processed + size) (k + 1) stopFlag'
        (Ev.gen size :: Ev.write size ::
          (stopEvs ++ Ev.progress (processed + size) inp.total :: rest.1),
          rest.2)
    else
      if stopFlag = false then
        ([Ev.complete processed inp.total 100 0],
          RunResult.completed processed)
      else ([], RunResult.stoppedEarly processed)

/-- One full `startIngestion()` run; `total + 1` fuel bounds the number
of loop-condition checks whenever `batchSize ≥ 1`. -/
def run (inp : RunInput) : List Ev × RunResult :=
  runLoop inp (inp.total + 1) 0 0 false

/-- The orchestrator instance state shared between `startIngestion` and
`stopIngestion`: the `isStopped` cancellation flag. -/
structure SvcState where
  isStopped : Bool
deriving DecidableEq, Repr

/-- `stopIngestion` (lines 160-164): unconditionally sets `isStopped`
and emits a `stopped` event, then resolves. -/
def stopIngestion (_s : SvcState) : SvcState × List Ev :=
  (⟨true⟩, [Ev.stopped])

/-- What a `startIngestion` call does before its first await. -/
inductive StartAction where
  | reject
  | proceed
deriving DecidableEq, Repr

/-- The synchronous prelude of `startIngestion` (lines 99-105): it
performs no run-state check — it unconditionally clears `isStopped`
and proceeds into the loop. -/
def startIngestionSync (_s : SvcState) : SvcState × StartAction :=
  (⟨false⟩, StartAction.proceed)

/-! ## HTTP control layer (routes.ts) -/

/-- The `currentStatus.status` value tracked by the route layer. -/
inductive ApiStatus where
  | idle
  | running
  | completed
  | failed
deriving DecidableEq, Repr

/-- The `POST /api/start` handler: replies 409 without invoking
`startIngestion` when the tracked status is `running`, else sets the
status to `running`, starts the ingestion in the background and
replies 202. Returns (HTTP status, whether `startIngestion` was
invoked, new tracked status). -/
def apiStart (st : ApiStatus) : ℕ × Bool × ApiStatus :=
  if st = ApiStatus.running then (409, false, st)
  else (202, true, ApiStatus.running)

/-! ## Trace observables -/

/-- Terminal lifecycle events: `complete`, `error`, `stopped`. -/
def Ev.isTerminal : Ev → Bool
  | .complete _ _ _ _ => true
  | .error _ => true
  | .stopped => true
  | _ => false

/-- `complete` or `error` (the terminal events the loop itself emits). -/
def Ev.isCompleteOrError : Ev → Bool
  | .complete _ _ _ _ => true
  | .error _ => true
  | _ => false

/-- Is this a `generateBatch` call marker? -/
def Ev.isGen : Ev → Bool
  | .gen _ => true
  | _ => false

/-- Is this a `writeTrades` call marker? -/
def Ev.isWrite : Ev → Bool
  | .write _ => true
  | _ => false

/-- Is this a `progress` event? -/
def Ev.isProgress : Ev → Bool
  | .progress _ _ => true
  | _ => false

/-- Is this a `complete` event? -/
def Ev.isComplete : Ev → Bool
  | .complete _ _ _ _ => true
  | _ => false

/-- Is this an `error` event? -/
def Ev.isError : Ev → Bool
  | .error _ => true
  | _ => false

/-- Is this a `stopped` event? -/
def Ev.isStopped : Ev → Bool
  | .stopped => true
  | _ => false

/-- The sequence of `writeTrades` batch sizes appearing in a trace. -/
def writeSizes (l : List Ev) : List ℕ :=
  l.filterMap fun e =>
    match e with
    | .write s => some s
    | _ => none

/-- `⌈a / b⌉` on naturals. -/
def ceilDiv (a b : ℕ) : ℕ := (a + b - 1) / b

/-- The expected event trace of an uncancelled, error-free run:
`n` remaining batches starting from `processed`, then the `complete`
emit with its hard-coded `percentage = 100`, `estimatedRemainingMs = 0`
payload. -/
def happyEvs (total bs : ℕ) : ℕ → ℕ → List Ev
  | 0, processed => [Ev.complete processed total 100 0]
  | n + 1, processed =>
    Ev.gen (min bs (total - processed)) ::
    Ev.write (min bs (total - processed)) ::
    Ev.progress (processed + min bs (total - processed)) total ::
    happyEvs total bs n (processed + min bs (total - processed))

/-- The expected event trace of an uncancelled run whose write rejects
after `d` more full batches: `d` successful full batches from
`processed`, then the failing `gen`/`write` pair and the `error` emit. -/
def errEvs (total bs e : ℕ) : ℕ → ℕ → List Ev
  | 0, processed =>
    [Ev.gen (min bs (total - processed)),
     Ev.write (min bs (total - processed)), Ev.error e]
  | d + 1, processed =>
    Ev.gen bs :: Ev.write bs :: Ev.progress (processed + bs) total ::
    errEvs total bs e d (processed + bs)

/-! ## Generator invariants -/

/-- A lower bound on baseline prices that survives `n` worst-case
downward drift steps (each multiplies by at least `199/200`) while
keeping every emitted price rounding to a positive value. -/
def priceFloor (n : ℕ) : ℚ := (1/180) * (200/199) ^ n

/-- All stored baselines — and the `100` default used for symbols
missing from the table — are at least `priceFloor n`. -/
def BaselinesOK (bl : Baselines) (n : ℕ) : Prop :=
  (∀ p ∈ bl, priceFloor n ≤ p.2) ∧ priceFloor n ≤ (100 : ℚ)

/-- The per-trade guarantees of `generateBatch` that actually hold on
the code: symbol from the configured list, side in {BUY, SELL},
positive price, integer amount in `[1, 1000]`, and a timestamp lying
on the UTC day of an instant drawn from `[startTs, endTs)` with its
time-of-day overridden into UTC trading hours `[14:00, 21:00)`. -/
def GoodTrade (cfg : TradeGenerationConfig) (t : Trade) : Prop :=
  t.symbol ∈ cfg.symbols ∧
  (t.side = TradeSide.buy ∨ t.side = TradeSide.sell) ∧
  0 < t.price ∧
  (∃ m : ℤ, 1 ≤ m ∧ m ≤ 1000 ∧ t.amount = (m : ℚ)) ∧
  (∃ u : ℤ, t.timestamp = some u ∧
    (∃ v : ℤ, cfg.startTs ≤ v ∧ v < cfg.endTs ∧
      u - u % 86400000 = v - v % 86400000) ∧
    14 * 3600000 ≤ u % 86400000 ∧ u % 86400000 < 21 * 3600000)

/-! ## Concrete instances used by witnesses and counterexamples -/

/-- A small concrete generator config (two symbols, one full UTC day). -/
def cfgW : TradeGenerationConfig :=
  { totalTrades := 100, batchSize := 10, startTs := 0,
    endTs := 86400000, symbols := ["AAPL", "MSFT"] }

/-- A constant in-range random stream. -/
def rngW : ℕ → ℚ := fun _ => 1/2

/-- A concrete baseline table for the witness runs. -/
def blW : Baselines := [("AAPL", 150), ("MSFT", 250)]

/-- A generator config whose date range covers only 22:00-23:00 UTC of
1970-01-01: the trading-hours override then always leaves the range. -/
def cfgCx : TradeGenerationConfig :=
  { totalTrades := 100, batchSize := 10, startTs := 79200000,
    endTs := 82800000, symbols := ["AAPL"] }

/-- The all-zeros random stream. -/
def rngCx : ℕ → ℚ := fun _ => 0

/-- Baseline table for the counterexample draw. -/
def blCx : Baselines := [("AAPL", 100)]

/-- A run of two unit batches during whose first write two concurrent
`stopIngestion()` calls arrive. -/
def runCx2 : RunInput :=
  { total := 2, batchSize := 1, writeErr := fun _ => none,
    stopsDuring := fun k => if k = 0 then 2 else 0 }

/-- An error-free, stop-free run input. -/
def runInpW (total bs : ℕ) : RunInput :=
  { total := total, batchSize := bs, writeErr := fun _ => none,
    stopsDuring := fun _ => 0 }

/-- A run whose third write (index 2) rejects with error id 7. -/
def runCx4 : RunInput :=
  { total := 100, batchSize := 10,
    writeErr := fun k => if k = 2 then some 7 else none,
    stopsDuring := fun _ => 0 }

/-- A run with one stop call during the first write. -/
def runCx3 : RunInput :=
  { total := 50, batchSize := 10, writeErr := fun _ => none,
    stopsDuring := fun k => if k = 0 then 1 else 0 }

/-! ## Shared lemmas -/

/-- `createTrade` succeeds exactly when the symbol is non-blank, the
price and amount are positive and the timestamp is valid, and then
returns the arguments unchanged. -/
lemma createTrade_ok_iff (symbol : String) (side : TradeSide)
    (price amount : ℚ) (timestamp : Option ℤ) :
    createTrade symbol side price amount timestamp =
      .ok ⟨symbol, side, price, amount, timestamp⟩ ↔
    (isBlank symbol = false ∧ 0 < price ∧ 0 < amount ∧
      timestamp.isSome = true) := by
  unfold createTrade
  rcases h1 : isBlank symbol <;> rcases h2 : timestamp <;>
    by_cases h3 : price ≤ 0 <;> by_cases h4 : amount ≤ 0 <;>
    simp [h1, h2, h3, h4, not_le] <;>
    first
      | (constructor <;> linarith)
      | (intro h <;> linarith)
      | (intro h h' <;> linarith)

/-- Whatever `createTrade` returns on success is the argument tuple. -/
lemma createTrade_ok_elim {symbol : String} {side : TradeSide}
    {price amount : ℚ} {timestamp : Option ℤ} {t : Trade}
    (h : createTrade symbol side price amount timestamp = .ok t) :
    t = ⟨symbol, side, price, amount, timestamp⟩ := by
  unfold createTrade at h
  rcases h1 : isBlank symbol <;> rw [h1] at h <;> simp at h
  split at h <;> simp_all
  split at h <;> simp_all
  split at h <;> simp_all

/-! ## C10: trade construction validates everything but the side -/

/-- C10: `createTrade` validates only symbol, price, amount and
timestamp — never `side`: for every side value it succeeds iff the
symbol is non-blank, `price > 0`, `amount > 0` and the timestamp is a
valid date, and on success it returns the five arguments unchanged. -/
theorem createTrade_validates_all_but_side (symbol : String)
    (side : TradeSide) (price amount : ℚ) (timestamp : Option ℤ) :
    ((∃ t, createTrade symbol side price amount timestamp = .ok t) ↔
      (isBlank symbol = false ∧ 0 < price ∧ 0 < amount ∧
        timestamp.isSome = true)) ∧
    ∀ t, createTrade symbol side price amount timestamp = .ok t →
      t.symbol = symbol ∧ t.side = side ∧ t.price = price ∧
      t.amount = amount ∧ t.timestamp = timestamp := by
  constructor
  · constructor
    · rintro ⟨t, ht⟩
      have := createTrade_ok_elim ht
      subst this
      exact (createTrade_ok_iff symbol side price amount timestamp).1 ht
    · intro h
      exact ⟨_, (createTrade_ok_iff symbol side price amount timestamp).2 h⟩
  · intro t ht
    have := createTrade_ok_elim ht
    subst this
    exact ⟨rfl, rfl, rfl, rfl, rfl⟩

/-- Witness for C10 at a concrete valid argument tuple. -/
theorem createTrade_validates_all_but_side_witness :
    ((∃ t, createTrade "AAPL" TradeSide.buy 10 5 (some 0) = .ok t) ↔
      (isBlank "AAPL" = false ∧ (0:ℚ) < 10 ∧ (0:ℚ) < 5 ∧
        (some (0:ℤ)).isSome = true)) ∧
    ∀ t, createTrade "AAPL" TradeSide.buy 10 5 (some 0) = .ok t →
      t.symbol = "AAPL" ∧ t.side = TradeSide.buy ∧ t.price = 10 ∧
      t.amount = 5 ∧ t.timestamp = some 0 :=
  createTrade_validates_all_but_side "AAPL" TradeSide.buy 10 5 (some 0)

/-! ## C9: `generateBatch` on non-positive counts -/

/-- C9: for every integer `count ≤ 0`, `generateBatch count` returns an
empty array, raises no error and leaves the baseline table unchanged
(the `for` loop body never runs). -/
theorem generateBatch_nonpos (cfg : TradeGenerationConfig)
    (rng : ℕ → ℚ) (count : ℤ) (bl : Baselines) (h : count ≤ 0) :
    generateBatch cfg rng count bl = .ok ([], bl) := by
  unfold generateBatch
  rw [Int.toNat_of_nonpos h]
  rfl

/-- Witness for C9 at `count = -5`. -/
theorem generateBatch_nonpos_witness :
    generateBatch cfgW rngW (-5) blW = .ok ([], blW) :=
  generateBatch_nonpos cfgW rngW (-5) blW (by decide)

/-! ## C8: the trade-to-point wire mapping -/

/-- C8: each trade maps to exactly one point (the batch write maps the
trade list elementwise), with measurement `'trade'`, tag `symbol` = the
trade's symbol, tag `side` = the lowercase form of the side's enum
member name, float field `price`, integer field `amount`, and event
time = the trade's ms timestamp (the write API precision is `'ms'`). -/
theorem tradeToPoint_contract :
    (∀ t : Trade,
      (tradeToPoint t).measurement = "trade" ∧
      (tradeToPoint t).tags = [("symbol", t.symbol),
        ("side", t.side.value)] ∧
      (tradeToPoint t).floatFields = [("price", t.price)] ∧
      (tradeToPoint t).intFields = [("amount", t.amount)] ∧
      (tradeToPoint t).time = t.timestamp) ∧
    (∀ s : TradeSide, (s.value).data = (s.memberName).data.map Char.toLower) ∧
    writePrecision = "ms" ∧
    (∀ trades : List Trade, writeTrades trades = trades.map tradeToPoint ∧
      (writeTrades trades).length = trades.length) := by
  refine ⟨fun t => ⟨rfl, rfl, rfl, rfl, rfl⟩, fun s => ?_, rfl,
    fun trades => ⟨rfl, List.length_map _ _⟩⟩
  cases s <;> decide

/-! ## C1: no already-running guard in the orchestrator -/

/-- Counterexample to C1: with a run in progress (here: one whose stop
flag is set), a second `startIngestion()` does not reject — it proceeds
into a new loop and clears the shared `isStopped` flag, mutating the
in-progress run's state. -/
theorem startIngestion_no_guard_cx :
    (startIngestionSync ⟨true⟩).2 = StartAction.proceed ∧
    StartAction.proceed ≠ StartAction.reject ∧
    (startIngestionSync ⟨true⟩).1 ≠ (⟨true⟩ : SvcState) := by decide

/-- C1 as amended: the service-level `startIngestion` performs no
run-state check (it always proceeds and resets the stop flag); the
already-running rejection lives in the HTTP layer, whose start handler
replies 409 without invoking `startIngestion` and leaves the tracked
status unchanged when a run is in progress, and otherwise replies 202
and starts a run. -/
theorem start_guard_in_http_layer :
    (∀ s : SvcState, startIngestionSync s = (⟨false⟩, StartAction.proceed)) ∧
    apiStart ApiStatus.running = (409, false, ApiStatus.running) ∧
    (∀ st : ApiStatus, st ≠ ApiStatus.running →
      apiStart st = (202, true, ApiStatus.running)) := by
  refine ⟨fun s => rfl, rfl, fun st hst => ?_⟩
  simp [apiStart, hst]

/-- Witness for C1's amended claim at the `idle` status. -/
theorem start_guard_in_http_layer_witness :
    apiStart ApiStatus.idle = (202, true, ApiStatus.running) :=
  start_guard_in_http_layer.2.2 ApiStatus.idle (by decide)

/-! ## Run-loop lemmas -/

/-- Once the stop flag is observed set, the loop body never runs again:
the remaining trace is empty. -/
lemma runLoop_flag_set (inp : RunInput) :
    ∀ (fuel p k : ℕ), (runLoop inp fuel p k true).1 = [] := by
  intro fuel p k
  cases fuel <;> simp [runLoop]

/-- `countP` over a replicated stop-event block. -/
lemma countP_replicate_ev (p : Ev → Bool) (n : ℕ) (a : Ev) :
    List.countP p (List.replicate n a) = if p a then n else 0 := by
  induction n with
  | zero => simp
  | succ n ih =>
      rw [List.replicate_succ, List.countP_cons, ih]
      split <;> simp_all

/-- After a stop call arrives during the `j`-th write, no later loop
iteration begins: at most `j + 1 - k` further `generateBatch` and
`writeTrades` calls occur from iteration `k ≤ j` onwards. -/
lemma runLoop_calls_after_stop (inp : RunInput) (j : ℕ)
    (hj : 1 ≤ inp.stopsDuring j) :
    ∀ (fuel p k : ℕ), k ≤ j →
    List.countP Ev.isGen (runLoop inp fuel p k false).1 ≤ j + 1 - k ∧
    List.countP Ev.isWrite (runLoop inp fuel p k false).1 ≤ j + 1 - k := by
  intro fuel
  induction fuel with
  | zero => intro p k hk; simp [runLoop]
  | succ fuel ih =>
    intro p k hk
    by_cases hc : p < inp.total
    · rcases hw : inp.writeErr k with _ | e
      · by_cases hs : inp.stopsDuring k = 0
        · have hkj : k < j := by
            rcases Nat.lt_or_ge k j with h | h
            · exact h
            · have hkeq : k = j := le_antisymm hk h
              rw [hkeq] at hs
              omega
          have ihr := ih (p + min inp.batchSize (inp.total - p)) (k + 1)
            (by omega)
          simp only [runLoop, hc, hw, hs, if_true, List.countP_cons,
            List.countP_append, countP_replicate_ev, Ev.isGen, Ev.isWrite,
            List.countP_nil, and_true, and_self, eq_self_iff_true,
            if_false, Bool.false_eq_true, List.countP_singleton] at ihr ⊢
          omega
        · simp only [runLoop, hc, hw, hs, if_false, and_self, if_true,
            eq_self_iff_true, and_true, Bool.false_eq_true,
            runLoop_flag_set, List.countP_cons, List.countP_append,
            countP_replicate_ev, Ev.isGen, Ev.isWrite, List.countP_nil]
          omega
      · simp only [runLoop, hc, hw, if_true, and_self, eq_self_iff_true,
          and_true, List.countP_cons, List.countP_append,
          countP_replicate_ev, Ev.isGen, Ev.isWrite, List.countP_nil,
          List.countP_singleton, Bool.false_eq_true, if_false]
        omega
    · simp only [runLoop, hc, if_false, and_false, false_and,
        Bool.false_eq_true, Ev.isGen, Ev.isWrite, List.countP_cons,
        List.countP_nil, List.countP_singleton]
      simp [Ev.isGen, Ev.isWrite]

/-- A stop-free run from a clear flag ends in a single
`complete`-or-`error` event placed after everything else, with no
`stopped` events anywhere. -/
lemma runLoop_nostop_structure (inp : RunInput)
    (hbs : 1 ≤ inp.batchSize) (hstop : ∀ k, inp.stopsDuring k = 0) :
    ∀ (fuel p k : ℕ), inp.total - p < fuel →
    ∃ pre ev, (runLoop inp fuel p k false).1 = pre ++ [ev] ∧
      ev.isCompleteOrError = true ∧
      List.countP Ev.isCompleteOrError pre = 0 ∧
      List.countP Ev.isStopped (pre ++ [ev]) = 0 := by
  intro fuel
  induction fuel with
  | zero => intro p k hfuel; omega
  | succ fuel ih =>
    intro p k hfuel
    by_cases hc : p < inp.total
    · rcases hw : inp.writeErr k with _ | e
      · have hsz : 1 ≤ min inp.batchSize (inp.total - p) := by
          simp only [le_min_iff]
          omega
        obtain ⟨pre, ev, hrec, hev, hpre, hst⟩ :=
          ih (p + min inp.batchSize (inp.total - p)) (k + 1) (by omega)
        refine ⟨Ev.gen (min inp.batchSize (inp.total - p)) ::
          Ev.write (min inp.batchSize (inp.total - p)) ::
          Ev.progress (p + min inp.batchSize (inp.total - p)) inp.total ::
          pre, ev, ?_, hev, ?_, ?_⟩
        · simp only [runLoop, hc, hw, hstop k, if_true, and_self,
            eq_self_iff_true, and_true, List.replicate_zero,
            List.nil_append, List.cons_append]
          rw [hrec]
        · simp [List.countP_cons, hpre, Ev.isCompleteOrError]
        · simp only [List.cons_append, List.countP_cons] at hst ⊢
          simp [hst, Ev.isStopped]
      · refine ⟨[Ev.gen (min inp.batchSize (inp.total - p)),
          Ev.write (min inp.batchSize (inp.total - p))], Ev.error e,
          ?_, rfl, ?_, ?_⟩
        · simp [runLoop, hc, hw, hstop k]
        · simp [List.countP_cons, Ev.isCompleteOrError]
        · simp [List.countP_cons, Ev.isStopped]
    · refine ⟨[], Ev.complete p inp.total 100 0, ?_, rfl, rfl, ?_⟩
      · simp [runLoop, hc]
      · simp [List.countP_cons, Ev.isStopped]

/-! ## C2: one terminal event per run — only without stop calls -/

/-- Counterexample to C2: in a run during whose first write two
`stopIngestion()` calls arrive, two `stopped` events are emitted (and a
`progress` event even follows them), so the number of terminal events
is 2, not 1. -/
theorem run_two_stops_two_terminals_cx :
    List.countP Ev.isTerminal (run runCx2).1 = 2 ∧
    List.countP Ev.isStopped (run runCx2).1 = 2 ∧
    List.countP Ev.isTerminal (run runCx2).1 ≠ 1 ∧
    (run runCx2).1 = [Ev.gen 1, Ev.write 1, Ev.stopped, Ev.stopped,
      Ev.progress 1 2] := by decide

/-- C2 as amended: when no `stopIngestion()` call is issued during the
run, exactly one of `complete` / `error` is emitted, after all other
events, and no `stopped` event occurs; each stop call, by contrast,
emits its own `stopped` event at call time (`stopIngestion` emits
unconditionally), so runs with several stop calls see several. -/
theorem run_single_terminal_without_stops (inp : RunInput)
    (hbs : 1 ≤ inp.batchSize) (hstop : ∀ k, inp.stopsDuring k = 0) :
    List.countP Ev.isCompleteOrError (run inp).1 = 1 ∧
    List.countP Ev.isStopped (run inp).1 = 0 ∧
    List.countP Ev.isTerminal (run inp).1 = 1 ∧
    (∃ ev, (run inp).1.getLast? = some ev ∧
      ev.isCompleteOrError = true) := by
  obtain ⟨pre, ev, htr, hev, hpre, hst⟩ :=
    runLoop_nostop_structure inp hbs hstop (inp.total + 1) 0 0 (by omega)
  rw [run] at *
  rw [htr] at *
  have hterm : ∀ l : List Ev, List.countP Ev.isStopped l = 0 →
      List.countP Ev.isTerminal l = List.countP Ev.isCompleteOrError l := by
    intro l
    induction l with
    | nil => simp
    | cons a l ihl =>
        intro h
        rw [List.countP_cons] at h
        have hl : List.countP Ev.isStopped l = 0 := by omega
        rw [List.countP_cons, List.countP_cons, ihl hl]
        cases a <;> simp [Ev.isTerminal, Ev.isCompleteOrError,
          Ev.isStopped] at h ⊢
  constructor
  · simp [List.countP_append, hpre, List.countP_cons, hev]
  refine ⟨hst, ?_, ev, List.getLast?_concat _, hev⟩
  rw [hterm _ hst]
  simp [List.countP_append, hpre, List.countP_cons, hev]

/-- Witness for C2's amended claim on the stop-free run
`total = 20, batchSize = 10`. -/
theorem run_single_terminal_without_stops_witness :
    List.countP Ev.isCompleteOrError (run (runInpW 20 10)).1 = 1 ∧
    List.countP Ev.isStopped (run (runInpW 20 10)).1 = 0 ∧
    List.countP Ev.isTerminal (run (runInpW 20 10)).1 = 1 ∧
    (∃ ev, (run (runInpW 20 10)).1.getLast? = some ev ∧
      ev.isCompleteOrError = true) :=
  run_single_terminal_without_stops (runInpW 20 10) (by decide)
    (fun _ => rfl)

/-! ## C3: stop is never a silent no-op, but does halt the loop -/

/-- Counterexample to C3: a `stopIngestion()` call with no run active is
not a no-op — it emits a `stopped` event and flips the stop flag. -/
theorem stopIngestion_not_silent_cx :
    (stopIngestion ⟨false⟩).2 = [Ev.stopped] ∧
    (stopIngestion ⟨false⟩).2 ≠ ([] : List Ev) ∧
    (stopIngestion ⟨false⟩).1 ≠ (⟨false⟩ : SvcState) := by decide

/-- C3 as amended: every `stopIngestion()` call succeeds, sets the stop
flag and emits one `stopped` event — also when no run is active, and on
every repeated call (idempotent on the flag, not on the event); a stop
arriving during the `j`-th write of a run halts the loop at the next
batch boundary: no `generateBatch` or `writeTrades` call beyond
iteration `j` ever begins. -/
theorem stop_always_flags_and_halts :
    (∀ s : SvcState, stopIngestion s = (⟨true⟩, [Ev.stopped])) ∧
    (∀ s : SvcState, stopIngestion (stopIngestion s).1 = stopIngestion s) ∧
    (∀ (inp : RunInput) (j : ℕ), 1 ≤ inp.stopsDuring j →
      List.countP Ev.isGen (run inp).1 ≤ j + 1 ∧
      List.countP Ev.isWrite (run inp).1 ≤ j + 1) := by
  refine ⟨fun s => rfl, fun s => rfl, fun inp j hj => ?_⟩
  have := runLoop_calls_after_stop inp j hj (inp.total + 1) 0 0
    (Nat.zero_le j)
  rw [run]
  omega

/-- Witness for C3's amended claim: one stop during the first write of
`runCx3` caps the batch calls at one. -/
theorem stop_always_flags_and_halts_witness :
    List.countP Ev.isGen (run runCx3).1 ≤ 0 + 1 ∧
    List.countP Ev.isWrite (run runCx3).1 ≤ 0 + 1 :=
  stop_always_flags_and_halts.2.2 runCx3 0 (by decide)

/-! ## Baseline-map lemmas -/

/-- `Map.set` then `Map.get` on the same key. -/
lemma mapGet_mapSet_self (bl : Baselines) (k : String) (v : ℚ) :
    mapGet (mapSet bl k v) k = some v := by
  induction bl with
  | nil => simp [mapGet, mapSet]
  | cons p rest ih =>
    by_cases h : p.1 = k <;> simp [mapGet, mapSet, h, ih]

/-- `Map.set` leaves other keys untouched. -/
lemma mapGet_mapSet_ne (bl : Baselines) (k : String) (v : ℚ)
    (s : String) (h : s ≠ k) :
    mapGet (mapSet bl k v) s = mapGet bl s := by
  induction bl with
  | nil => simp [mapGet, mapSet, Ne.symm h]
  | cons p rest ih =>
    by_cases hp : p.1 = k
    · simp [mapGet, mapSet, hp, Ne.symm h]
    · by_cases hs : p.1 = s <;>
        simp [mapGet, mapSet, hp, hs, h, Ne.symm h, ih]

/-- Every binding of `Map.set bl k v` is the new binding or an old one. -/
lemma mem_mapSet (bl : Baselines) (k : String) (v : ℚ) :
    ∀ p ∈ mapSet bl k v, p = (k, v) ∨ p ∈ bl := by
  induction bl with
  | nil => simp [mapSet]
  | cons q rest ih =>
    intro p hp
    by_cases h : q.1 = k
    · simp only [mapSet, h, if_true, eq_self_iff_true,
        List.mem_cons] at hp
      rcases hp with h1 | h1
      · exact Or.inl h1
      · exact Or.inr (List.mem_cons_of_mem q h1)
    · simp only [mapSet, h, if_false, List.mem_cons] at hp
      rcases hp with h1 | h1
      · exact Or.inr (h1 ▸ List.mem_cons_self q rest)
      · rcases ih p h1 with h2 | h2
        · exact Or.inl h2
        · exact Or.inr (List.mem_cons_of_mem q h2)

/-- `Map.get` only returns stored bindings. -/
lemma mapGet_mem (bl : Baselines) (k : String) (v : ℚ)
    (h : mapGet bl k = some v) : (k, v) ∈ bl := by
  induction bl with
  | nil => simp [mapGet] at h
  | cons p rest ih =>
    by_cases hp : p.1 = k
    · simp only [mapGet, hp, if_true, eq_self_iff_true,
        Option.some.injEq] at h
      subst h
      rw [← hp]
      exact List.mem_cons_self p rest
    · simp only [mapGet, hp, if_false] at h
      exact List.mem_cons_of_mem p (ih h)

/-! ## Generator bound lemmas -/

/-- The baseline floor is positive. -/
lemma priceFloor_pos (n : ℕ) : 0 < priceFloor n := by
  unfold priceFloor
  positivity

/-- One drift step of the baseline floor. -/
lemma priceFloor_succ (n : ℕ) :
    priceFloor (n + 1) = priceFloor n * (200/199) := by
  unfold priceFloor
  rw [pow_succ]
  ring

/-- The baseline floor grows with the remaining-draw budget. -/
lemma priceFloor_mono (n : ℕ) : priceFloor n ≤ priceFloor (n + 1) := by
  rw [priceFloor_succ]
  nlinarith [priceFloor_pos n]

/-- The baseline floor never drops below its seed `1/180`. -/
lemma priceFloor_lb (n : ℕ) : 1/180 ≤ priceFloor n := by
  induction n with
  | zero => unfold priceFloor; norm_num
  | succ n ih => exact le_trans ih (priceFloor_mono n)

/-- Rounding to two decimals keeps values at least `1/200` positive. -/
lemma round2_pos {q : ℚ} (h : 1/200 ≤ q) : 0 < round2 q := by
  unfold round2
  have h1 : (1:ℤ) ≤ ⌊q * 100 + 1/2⌋ :=
    Int.le_floor.2 (by push_cast; linarith)
  have h2 : (1:ℚ) ≤ (⌊q * 100 + 1/2⌋ : ℚ) := by exact_mod_cast h1
  linarith

/-- The amount draw is an integer in `[1, 1000]`. -/
lemma generateRandomAmount_int (r : ℚ) (h0 : 0 ≤ r) (h1 : r < 1) :
    ∃ m : ℤ, 1 ≤ m ∧ m ≤ 1000 ∧ generateRandomAmount r = (m : ℚ) := by
  refine ⟨⌊r ^ 2 * 1000⌋ + 1, ?_, ?_, rfl⟩
  · have : (0:ℤ) ≤ ⌊r ^ 2 * 1000⌋ :=
      Int.le_floor.2 (by push_cast; positivity)
    omega
  · have : ⌊r ^ 2 * 1000⌋ < 1000 :=
      Int.floor_lt.2 (by push_cast; nlinarith)
    omega

/-- The timestamp draw keeps the UTC day of an instant drawn uniformly
from `[startTs, endTs)` and forces the time-of-day into UTC trading
hours `[14:00, 21:00)`. -/
lemma generateRandomTimestamp_spec (startTs endTs : ℤ)
    (r1 r2 r3 r4 r5 : ℚ) (hrange : startTs < endTs)
    (h1 : 0 ≤ r1 ∧ r1 < 1) (h2 : 0 ≤ r2 ∧ r2 < 1)
    (h3 : 0 ≤ r3 ∧ r3 < 1) (h4 : 0 ≤ r4 ∧ r4 < 1)
    (h5 : 0 ≤ r5 ∧ r5 < 1) :
    (∃ v : ℤ, startTs ≤ v ∧ v < endTs ∧
      generateRandomTimestamp startTs (endTs - startTs) r1 r2 r3 r4 r5 -
        generateRandomTimestamp startTs (endTs - startTs)
          r1 r2 r3 r4 r5 % 86400000 = v - v % 86400000) ∧
    14 * 3600000 ≤
      generateRandomTimestamp startTs (endTs - startTs)
        r1 r2 r3 r4 r5 % 86400000 ∧
    generateRandomTimestamp startTs (endTs - startTs)
      r1 r2 r3 r4 r5 % 86400000 < 21 * 3600000 := by
  have hcast : ∀ (r : ℚ) (c : ℤ), 0 ≤ r → r < 1 → 1 ≤ c →
      0 ≤ ⌊r * (c : ℚ)⌋ ∧ ⌊r * (c : ℚ)⌋ < c := by
    intro r c hr0 hr1 hc
    constructor
    · apply Int.le_floor.2
      push_cast
      have : (0:ℚ) ≤ (c:ℚ) := by exact_mod_cast (by omega : (0:ℤ) ≤ c)
      nlinarith
    · apply Int.floor_lt.2
      have : (0:ℚ) < (c:ℚ) := by exact_mod_cast (by omega : (0:ℤ) < c)
      nlinarith
  have hflit : ∀ (r : ℚ) (c : ℕ), 0 ≤ r → r < 1 → 1 ≤ c →
      0 ≤ ⌊r * (c : ℚ)⌋ ∧ ⌊r * (c : ℚ)⌋ < (c : ℤ) := by
    intro r c hr0 hr1 hc
    have := hcast r (c : ℤ) hr0 hr1 (by exact_mod_cast hc)
    simpa using this
  obtain ⟨ho0, ho1⟩ := hcast r1 (endTs - startTs) h1.1 h1.2 (by omega)
  have hh := hflit r2 7 h2.1 h2.2 (by omega)
  have hmi := hflit r3 60 h3.1 h3.2 (by omega)
  have hse := hflit r4 60 h4.1 h4.2 (by omega)
  have hms := hflit r5 1000 h5.1 h5.2 (by omega)
  have heq : generateRandomTimestamp startTs (endTs - startTs)
      r1 r2 r3 r4 r5 =
      (startTs + ⌊r1 * ((endTs - startTs : ℤ) : ℚ)⌋) -
        (startTs + ⌊r1 * ((endTs - startTs : ℤ) : ℚ)⌋) % 86400000 +
        3600000 * (14 + ⌊r2 * (7:ℚ)⌋) + 60000 * ⌊r3 * (60:ℚ)⌋ +
        1000 * ⌊r4 * (60:ℚ)⌋ + ⌊r5 * (1000:ℚ)⌋ := rfl
  rw [heq]
  push_cast at hh hmi hse hms
  refine ⟨⟨startTs + ⌊r1 * ((endTs - startTs : ℤ) : ℚ)⌋,
    by omega, by omega, by omega⟩, by omega, by omega⟩

/-! ## C7: the price random walk -/

/-- C7: one price draw for a symbol stored with baseline `b ≠ 0` emits
`round2 (b * (1 + variation))` with `variation = (r1 - ½)/10 ∈
[-5%, +5%)`, and replaces the stored baseline by `b * (1 + drift)` with
`drift = (r2 - ½)/100 ∈ [-0.5%, +0.5%)`; price and new baseline both
derive from the same pre-update `b` through the two independent draws,
and no other symbol's baseline changes. -/
theorem generateRandomPrice_walk (bl : Baselines) (symbol : String)
    (b r1 r2 : ℚ) (hb : mapGet bl symbol = some b) (hb0 : b ≠ 0)
    (hr1 : 0 ≤ r1 ∧ r1 < 1) (hr2 : 0 ≤ r2 ∧ r2 < 1) :
    (generateRandomPrice bl symbol r1 r2).1 =
      round2 (b * (1 + (r1 - 1/2) * (1/10))) ∧
    (-(1/20) ≤ (r1 - 1/2) * (1/10) ∧ (r1 - 1/2) * (1/10) < 1/20) ∧
    mapGet (generateRandomPrice bl symbol r1 r2).2 symbol =
      some (b * (1 + (r2 - 1/2) * (1/100))) ∧
    (-(1/200) ≤ (r2 - 1/2) * (1/100) ∧ (r2 - 1/2) * (1/100) < 1/200) ∧
    (∀ s, s ≠ symbol →
      mapGet (generateRandomPrice bl symbol r1 r2).2 s =
        mapGet bl s) := by
  obtain ⟨hr1a, hr1b⟩ := hr1
  obtain ⟨hr2a, hr2b⟩ := hr2
  have hbase : baselineOf bl symbol = b := by
    simp [baselineOf, hb, hb0]
  refine ⟨?_, ⟨by linarith, by linarith⟩, ?_,
    ⟨by linarith, by linarith⟩, ?_⟩
  · simp [generateRandomPrice, hbase]
  · simp [generateRandomPrice, hbase, mapGet_mapSet_self]
  · intro s hs
    simp [generateRandomPrice, hbase,
      mapGet_mapSet_ne bl symbol _ s hs]

/-- Witness for C7 at baseline 150 and the zero draws. -/
theorem generateRandomPrice_walk_witness :
    (generateRandomPrice blW "AAPL" 0 0).1 =
      round2 (150 * (1 + ((0:ℚ) - 1/2) * (1/10))) ∧
    mapGet (generateRandomPrice blW "AAPL" 0 0).2 "AAPL" =
      some (150 * (1 + ((0:ℚ) - 1/2) * (1/100))) := by
  have h := generateRandomPrice_walk blW "AAPL" 150 0 0
    (by simp [blW, mapGet]) (by norm_num)
    ⟨le_refl 0, zero_lt_one⟩ ⟨le_refl 0, zero_lt_one⟩
  exact ⟨h.1, h.2.2.1⟩

/-! ## Per-trade generator lemmas (C6) -/

/-- `getD` at an in-range index returns a list element. -/
lemma getD_mem {l : List String} {i : ℕ} (h : i < l.length)
    (d : String) : l.getD i d ∈ l := by
  induction l generalizing i with
  | nil => simp at h
  | cons a t ih =>
    cases i with
    | zero => simp
    | succ i =>
      simp only [List.getD_cons_succ]
      exact List.mem_cons_of_mem a (ih (by simpa using h))

/-- The pre-draw baseline read is bounded below by the floor whenever
the table is. -/
lemma baselineOf_ge (bl : Baselines) (symbol : String) (n : ℕ)
    (hbl : BaselinesOK bl n) : priceFloor n ≤ baselineOf bl symbol := by
  unfold baselineOf
  cases hmg : mapGet bl symbol with
  | none => exact hbl.2
  | some v =>
    have hv := hbl.1 (symbol, v) (mapGet_mem bl symbol v hmg)
    have hvpos : (0:ℚ) < v := lt_of_lt_of_le (priceFloor_pos n) hv
    simp [ne_of_gt hvpos]
    exact hv

/-- One iteration of the batch loop succeeds and produces a good trade,
consuming one unit of the baseline-floor budget. -/
lemma generateTrade_ok (cfg : TradeGenerationConfig) (rng : ℕ → ℚ)
    (bl : Baselines) (i n : ℕ)
    (hsym : cfg.symbols ≠ [])
    (hsymok : ∀ s ∈ cfg.symbols, isBlank s = false)
    (hrange : cfg.startTs < cfg.endTs)
    (hrng : ∀ j, 0 ≤ rng j ∧ rng j < 1)
    (hbl : BaselinesOK bl (n + 1)) :
    ∃ t bl', generateTrade cfg rng bl i = .ok (t, bl') ∧
      GoodTrade cfg t ∧ BaselinesOK bl' n := by
  have hlen : 1 ≤ cfg.symbols.length := List.length_pos.2 hsym
  obtain ⟨hia, hib⟩ := hrng i
  have hidx0 : (0:ℤ) ≤ ⌊rng i * (cfg.symbols.length : ℚ)⌋ := by
    apply Int.le_floor.2
    push_cast
    have : (0:ℚ) ≤ (cfg.symbols.length : ℚ) := by positivity
    nlinarith
  have hidx1 : ⌊rng i * (cfg.symbols.length : ℚ)⌋ <
      (cfg.symbols.length : ℤ) := by
    apply Int.floor_lt.2
    have : (0:ℚ) < (cfg.symbols.length : ℚ) := by
      exact_mod_cast hlen
    push_cast
    nlinarith
  have hidx : (⌊rng i * (cfg.symbols.length : ℚ)⌋).toNat <
      cfg.symbols.length := by omega
  have hsymmem : cfg.symbols.getD
      ((⌊rng i * (cfg.symbols.length : ℚ)⌋).toNat) "" ∈ cfg.symbols :=
    getD_mem hidx ""
  have hsblank : isBlank (cfg.symbols.getD
      ((⌊rng i * (cfg.symbols.length : ℚ)⌋).toNat) "") = false :=
    hsymok _ hsymmem
  have hbase := baselineOf_ge bl
    (cfg.symbols.getD ((⌊rng i * (cfg.symbols.length : ℚ)⌋).toNat) "")
    (n + 1) hbl
  have hb0 : (0:ℚ) < baselineOf bl
      (cfg.symbols.getD ((⌊rng i * (cfg.symbols.length : ℚ)⌋).toNat)
        "") := lt_of_lt_of_le (priceFloor_pos (n + 1)) hbase
  have hlb := priceFloor_lb (n + 1)
  obtain ⟨hva, hvb⟩ := hrng (i + 2)
  obtain ⟨hda, hdb⟩ := hrng (i + 3)
  have hq : 1/200 ≤ baselineOf bl
      (cfg.symbols.getD ((⌊rng i * (cfg.symbols.length : ℚ)⌋).toNat)
        "") * (1 + (rng (i+2) - 1/2) * (1/10)) := by
    nlinarith
  have hppos := round2_pos hq
  obtain ⟨m, hm1, hm2, hmeq⟩ :=
    generateRandomAmount_int (rng (i+4)) (hrng (i+4)).1 (hrng (i+4)).2
  have hampos : (0:ℚ) < generateRandomAmount (rng (i+4)) := by
    rw [hmeq]
    exact_mod_cast (by omega : (0:ℤ) < m)
  obtain ⟨⟨v, hv1, hv2, hv3⟩, hts1, hts2⟩ :=
    generateRandomTimestamp_spec cfg.startTs cfg.endTs (rng (i+5))
      (rng (i+6)) (rng (i+7)) (rng (i+8)) (rng (i+9)) hrange
      (hrng (i+5)) (hrng (i+6)) (hrng (i+7)) (hrng (i+8)) (hrng (i+9))
  have hnewbase : priceFloor n ≤ baselineOf bl
      (cfg.symbols.getD ((⌊rng i * (cfg.symbols.length : ℚ)⌋).toNat)
        "") * (1 + (rng (i+3) - 1/2) * (1/100)) := by
    have hpfs : priceFloor (n + 1) * (199/200) = priceFloor n := by
      rw [priceFloor_succ]
      ring
    nlinarith [priceFloor_pos (n + 1)]
  have hct := (createTrade_ok_iff
    (cfg.symbols.getD ((⌊rng i * (cfg.symbols.length : ℚ)⌋).toNat) "")
    (if rng (i+1) < 1/2 then TradeSide.buy else TradeSide.sell)
    (round2 (baselineOf bl
      (cfg.symbols.getD ((⌊rng i * (cfg.symbols.length : ℚ)⌋).toNat)
        "") * (1 + (rng (i+2) - 1/2) * (1/10))))
    (generateRandomAmount (rng (i+4)))
    (some (generateRandomTimestamp cfg.startTs
      (cfg.endTs - cfg.startTs) (rng (i+5)) (rng (i+6)) (rng (i+7))
      (rng (i+8)) (rng (i+9))))).2
    ⟨hsblank, hppos, hampos, rfl⟩
  refine ⟨⟨cfg.symbols.getD ((⌊rng i * (cfg.symbols.length : ℚ)⌋).toNat)
      "",
    (if rng (i+1) < 1/2 then TradeSide.buy else TradeSide.sell),
    round2 (baselineOf bl (cfg.symbols.getD
      ((⌊rng i * (cfg.symbols.length : ℚ)⌋).toNat) "") *
      (1 + (rng (i+2) - 1/2) * (1/10))),
    generateRandomAmount (rng (i+4)),
    some (generateRandomTimestamp cfg.startTs (cfg.endTs - cfg.startTs)
      (rng (i+5)) (rng (i+6)) (rng (i+7)) (rng (i+8)) (rng (i+9)))⟩,
    mapSet bl (cfg.symbols.getD
      ((⌊rng i * (cfg.symbols.length : ℚ)⌋).toNat) "")
      (baselineOf bl (cfg.symbols.getD
        ((⌊rng i * (cfg.symbols.length : ℚ)⌋).toNat) "") *
        (1 + (rng (i+3) - 1/2) * (1/100))),
    ?_, ?_, ?_⟩
  · simp only [generateTrade, generateRandomPrice]
    rw [hct]
  · refine ⟨hsymmem, ?_, hppos, ⟨m, hm1, hm2, hmeq⟩,
      ⟨generateRandomTimestamp cfg.startTs (cfg.endTs - cfg.startTs)
        (rng (i+5)) (rng (i+6)) (rng (i+7)) (rng (i+8)) (rng (i+9)),
        rfl, ⟨v, hv1, hv2, hv3⟩, hts1, hts2⟩⟩
    by_cases hside : rng (i+1) < 1/2
    · left
      simp
      linarith
    · right
      simp
      linarith [not_lt.1 hside]
  · constructor
    · intro p hp
      rcases mem_mapSet bl _ _ p hp with h | h
      · rw [h]
        exact hnewbase
      · exact le_trans (priceFloor_mono n) (hbl.1 p h)
    · exact le_trans (priceFloor_mono n) hbl.2

/-- The batch loop threads the baseline table through `n` good trades. -/
lemma generateBatchAux_ok (cfg : TradeGenerationConfig) (rng : ℕ → ℚ)
    (hsym : cfg.symbols ≠ [])
    (hsymok : ∀ s ∈ cfg.symbols, isBlank s = false)
    (hrange : cfg.startTs < cfg.endTs)
    (hrng : ∀ j, 0 ≤ rng j ∧ rng j < 1) :
    ∀ (n : ℕ) (bl : Baselines) (i : ℕ), BaselinesOK bl n →
      ∃ ts bl', generateBatchAux cfg rng n bl i = .ok (ts, bl') ∧
        ts.length = n ∧ ∀ t ∈ ts, GoodTrade cfg t := by
  intro n
  induction n with
  | zero =>
    intro bl i _
    exact ⟨[], bl, rfl, rfl, by simp⟩
  | succ n ih =>
    intro bl i hbl
    obtain ⟨t, bl', ht, hgood, hbl'⟩ :=
      generateTrade_ok cfg rng bl i n hsym hsymok hrange hrng hbl
    obtain ⟨ts, bl'', hts, hlen, hall⟩ := ih bl' (i + 10) hbl'
    refine ⟨t :: ts, bl'', ?_, by simp [hlen], ?_⟩
    · simp only [generateBatchAux, ht, hts]
    · intro x hx
      rcases List.mem_cons.1 hx with h | h
      · exact h ▸ hgood
      · exact hall x h

/-! ## C6: what `generateBatch` actually guarantees -/

/-- Counterexample to C6: with the date range 22:00-23:00 UTC of
1970-01-01 (`startTs = 79200000`, `endTs = 82800000`, so
`startDate ≤ endDate`), the all-zeros random stream draws a trade whose
hour is overridden to 14:00 UTC: its timestamp 50400000 lies before
`startDate`, outside `[startDate, endDate]`. -/
theorem generateBatch_timestamp_cx :
    generateBatch cfgCx rngCx 1 blCx =
      .ok ([⟨"AAPL", TradeSide.buy, 95, 1, some 50400000⟩],
        [("AAPL", 199/2)]) ∧
    ¬(cfgCx.startTs ≤ 50400000 ∧ (50400000:ℤ) ≤ cfgCx.endTs) := by
  have h1 : isBlank "AAPL" = false := by decide
  constructor
  · norm_num [generateBatch, generateBatchAux, generateTrade,
      generateRandomPrice, baselineOf, mapGet, mapSet,
      generateRandomAmount, generateRandomTimestamp, round2,
      createTrade, cfgCx, rngCx, blCx, h1, Int.toNat_zero]
  · norm_num [cfgCx]

/-- C6 as amended: for every `n`, every random stream valued in
`[0, 1)`, and every generator state with a non-empty list of non-blank
symbols, `startDate < endDate`, and all baselines (and the default 100)
at least `priceFloor n` — a bound any freshly seeded table (baselines
in `[50, 500)`) satisfies for all realistic `n`, and which guarantees
every drawn price still rounds to a positive value after `n` worst-case
downward drifts — `generateBatch n` returns exactly `n` trades, each
with symbol in the configured list, side in {BUY, SELL}, `price > 0`,
an integer amount in `[1, 1000]`, and a timestamp lying in UTC trading
hours `[14:00, 21:00)` of the UTC day of an instant drawn from
`[startDate, endDate)` — which may fall outside `[startDate, endDate]`
when that range does not cover those hours. -/
theorem generateBatch_spec (cfg : TradeGenerationConfig) (rng : ℕ → ℚ)
    (count : ℤ) (bl : Baselines)
    (hsym : cfg.symbols ≠ [])
    (hsymok : ∀ s ∈ cfg.symbols, isBlank s = false)
    (hrange : cfg.startTs < cfg.endTs)
    (hrng : ∀ j, 0 ≤ rng j ∧ rng j < 1)
    (hbl : BaselinesOK bl count.toNat) :
    ∃ ts bl', generateBatch cfg rng count bl = .ok (ts, bl') ∧
      ts.length = count.toNat ∧ ∀ t ∈ ts, GoodTrade cfg t := by
  exact generateBatchAux_ok cfg rng hsym hsymok hrange hrng
    count.toNat bl 0 hbl

/-- Witness for C6's amended claim: two trades from the witness config
and the constant `1/2` stream. -/
theorem generateBatch_spec_witness :
    ∃ ts bl', generateBatch cfgW rngW 2 blW = .ok (ts, bl') ∧
      ts.length = (2:ℤ).toNat ∧ ∀ t ∈ ts, GoodTrade cfgW t :=
  generateBatch_spec cfgW rngW 2 blW (by simp [cfgW])
    (by intro s hs; simp [cfgW] at hs; rcases hs with h | h <;>
      subst h <;> decide)
    (by norm_num [cfgW])
    (fun _ => ⟨by norm_num [rngW], by norm_num [rngW]⟩)
    (by
      constructor
      · intro p hp
        simp [blW] at hp
        rcases hp with h | h <;> rw [h] <;>
          norm_num [priceFloor, show (2:ℤ).toNat = 2 from rfl]
      · norm_num [priceFloor, show (2:ℤ).toNat = 2 from rfl])

/-! ## Error-path lemmas (C4) -/

/-- A stop-free run whose writes all succeed until call `K`, which
rejects: from iteration `idx = K - d` at `processed = idx * batchSize`,
the loop performs `d` more successful full batches and then fails,
leaving `processed` at `K * batchSize`. -/
lemma runLoop_err_path (inp : RunInput) (K e : ℕ)
    (hbs : 1 ≤ inp.batchSize)
    (hstop : ∀ k, inp.stopsDuring k = 0)
    (hK : inp.writeErr K = some e)
    (hprev : ∀ i, i < K → inp.writeErr i = none)
    (hlt : K * inp.batchSize < inp.total) :
    ∀ (d fuel p idx : ℕ), idx + d = K → p = idx * inp.batchSize →
      d < fuel →
      runLoop inp fuel p idx false =
        (errEvs inp.total inp.batchSize e d p,
          RunResult.failed e (K * inp.batchSize)) := by
  intro d
  induction d with
  | zero =>
    intro fuel p idx hid hp hfuel
    have hidK : idx = K := by omega
    subst hidK hp
    have hc : idx * inp.batchSize < inp.total := hlt
    obtain ⟨fuel', rfl⟩ : ∃ f', fuel = f' + 1 :=
      ⟨fuel - 1, by omega⟩
    simp only [runLoop, hc, hK, if_true, and_self, eq_self_iff_true,
      and_true, hstop idx, List.replicate_zero, List.nil_append]
    rfl
  | succ d ih =>
    intro fuel p idx hid hp hfuel
    have hmul : idx * inp.batchSize + d * inp.batchSize +
        inp.batchSize = K * inp.batchSize := by
      rw [← hid]
      ring
    have hc : p < inp.total := by omega
    have hsz : min inp.batchSize (inp.total - p) = inp.batchSize := by
      apply min_eq_left
      omega
    have hwn : inp.writeErr idx = none := hprev idx (by omega)
    obtain ⟨fuel', rfl⟩ : ∃ f', fuel = f' + 1 :=
      ⟨fuel - 1, by omega⟩
    have ihr := ih fuel' (p + inp.batchSize) (idx + 1) (by omega)
      (by rw [hp]; ring) (by omega)
    simp only [runLoop, hc, hwn, if_true, and_self, eq_self_iff_true,
      and_true, hstop idx, List.replicate_zero, List.nil_append, hsz,
      ihr, errEvs]

/-- Shape facts about the expected error trace. -/
lemma errEvs_props (total bs e : ℕ) :
    ∀ d p, List.countP Ev.isError (errEvs total bs e d p) = 1 ∧
      (errEvs total bs e d p).getLast? = some (Ev.error e) ∧
      List.countP Ev.isProgress (errEvs total bs e d p) = d ∧
      List.countP Ev.isStopped (errEvs total bs e d p) = 0 ∧
      writeSizes (errEvs total bs e d p) =
        List.replicate d bs ++ [min bs (total - (p + d * bs))] := by
  intro d
  induction d with
  | zero =>
    intro p
    refine ⟨rfl, rfl, rfl, rfl, ?_⟩
    simp [errEvs, writeSizes]
  | succ d ih =>
    intro p
    obtain ⟨h1, h2, h3, h4, h5⟩ := ih (p + bs)
    refine ⟨?_, ?_, ?_, ?_, ?_⟩
    · simp [errEvs, List.countP_cons, h1, Ev.isError]
    · simp only [errEvs, List.getLast?_cons_cons]
      rw [← h2]
      cases hE : errEvs total bs e d (p + bs) with
      | nil =>
          exfalso
          rw [hE] at h1
          simp at h1
      | cons a l => simp [List.getLast?_cons_cons]
    · simp [errEvs, List.countP_cons, h3, Ev.isProgress]
    · simp [errEvs, List.countP_cons, h4, Ev.isStopped]
    · simp only [errEvs, writeSizes, List.filterMap_cons]
      simp only [writeSizes] at h5
      rw [h5]
      have : p + bs + d * bs = p + (d + 1) * bs := by ring
      rw [this]
      simp [List.replicate_succ]

/-! ## C4: a write failure aborts the run cleanly -/

/-- C4: in a stop-free run whose `K`-th write call (0-indexed; all
earlier ones succeeded) rejects with error `e`, exactly one `error`
event fires, as the final event, carrying `e`; `startIngestion()`
rejects with that same error; and the final `processed` counter is
`K * batchSize` — the sum of the sizes of the `K` successfully
completed batches, the failed batch not advancing it. -/
theorem run_write_failure_aborts (total bs K e : ℕ)
    (werr : ℕ → Option ℕ) (hbs : 1 ≤ bs)
    (hK : werr K = some e) (hprev : ∀ i, i < K → werr i = none)
    (hlt : K * bs < total) :
    (run ⟨total, bs, werr, fun _ => 0⟩).2 =
      RunResult.failed e (K * bs) ∧
    List.countP Ev.isError (run ⟨total, bs, werr, fun _ => 0⟩).1 = 1 ∧
    (run ⟨total, bs, werr, fun _ => 0⟩).1.getLast? =
      some (Ev.error e) ∧
    List.countP Ev.isProgress (run ⟨total, bs, werr, fun _ => 0⟩).1 = K ∧
    List.countP Ev.isStopped (run ⟨total, bs, werr, fun _ => 0⟩).1 = 0 ∧
    writeSizes (run ⟨total, bs, werr, fun _ => 0⟩).1 =
      List.replicate K bs ++ [min bs (total - K * bs)] ∧
    (List.take K (writeSizes (run ⟨total, bs, werr, fun _ => 0⟩).1)).sum =
      K * bs := by
  have hKfuel : K < total + 1 := by
    have : K ≤ K * bs := Nat.le_mul_of_pos_right K (by omega)
    omega
  have hrun := runLoop_err_path ⟨total, bs, werr, fun _ => 0⟩ K e hbs
    (fun _ => rfl) hK hprev hlt K (total + 1) 0 0 (by omega) (by ring)
    hKfuel
  rw [run, hrun]
  obtain ⟨h1, h2, h3, h4, h5⟩ := errEvs_props total bs e K 0
  have hz : (0 : ℕ) + K * bs = K * bs := by omega
  rw [hz] at h5
  refine ⟨rfl, h1, h2, h3, h4, h5, ?_⟩
  rw [h5]
  have htake : List.take K (List.replicate K bs ++
      [min bs (total - K * bs)]) = List.replicate K bs := by
    rw [List.take_append_of_le_length (by simp), List.take_replicate]
    simp
  rw [htake, List.sum_replicate, smul_eq_mul]

/-! ## Happy-path lemmas (C5) -/

/-- One batch of size `min bs rem` knocks `ceilDiv` down by one. -/
lemma ceilDiv_succ_step (rem bs : ℕ) (hbs : 1 ≤ bs) (hrem : 1 ≤ rem) :
    ceilDiv rem bs = ceilDiv (rem - min bs rem) bs + 1 := by
  rcases le_or_lt bs rem with h | h
  · rw [min_eq_left h]
    unfold ceilDiv
    have h1 : rem + bs - 1 = (rem - bs + bs - 1) + bs := by omega
    rw [h1, Nat.add_div_right _ (by omega)]
  · rw [min_eq_right h.le]
    unfold ceilDiv
    have h2 : (rem - rem + bs - 1) / bs = 0 :=
      Nat.div_eq_of_lt (by omega)
    rw [h2]
    exact Nat.div_eq_of_lt_le (by omega) (by omega)

/-- `ceilDiv rem bs = 0` exactly on `rem = 0` (for positive `bs`). -/
lemma ceilDiv_eq_zero_iff (rem bs : ℕ) (hbs : 1 ≤ bs) :
    ceilDiv rem bs = 0 ↔ rem = 0 := by
  unfold ceilDiv
  constructor
  · intro h
    by_contra hr
    have h2 := (Nat.one_le_div_iff (show 0 < bs by omega)).2
      (show bs ≤ rem + bs - 1 by omega)
    omega
  · intro h
    rw [h]
    exact Nat.div_eq_of_lt (by omega)

/-- The expected happy trace is never empty. -/
lemma happyEvs_ne_nil (total bs : ℕ) :
    ∀ n p, happyEvs total bs n p ≠ [] := by
  intro n p
  cases n <;> simp [happyEvs]

/-- `getLast?` skips a cons onto a non-empty list. -/
lemma getLast?_cons_ne_nil {a : Ev} {l : List Ev} (h : l ≠ []) :
    (a :: l).getLast? = l.getLast? := by
  cases l with
  | nil => exact absurd rfl h
  | cons b t => exact List.getLast?_cons_cons ..

/-- Shape facts about the expected happy trace, when `n` is the exact
number of remaining batches for `rem = total - p` remaining trades. -/
lemma happyEvs_props (total bs : ℕ) (hbs : 1 ≤ bs) :
    ∀ n rem p, p + rem = total → n = ceilDiv rem bs →
      List.countP Ev.isWrite (happyEvs total bs n p) = n ∧
      writeSizes (happyEvs total bs n p) =
        (List.range n).map (fun i => min bs (rem - i * bs)) ∧
      List.countP Ev.isProgress (happyEvs total bs n p) = n ∧
      List.countP Ev.isComplete (happyEvs total bs n p) = 1 ∧
      List.countP Ev.isStopped (happyEvs total bs n p) = 0 ∧
      List.countP Ev.isError (happyEvs total bs n p) = 0 ∧
      (happyEvs total bs n p).getLast? =
        some (Ev.complete total total 100 0) := by
  intro n
  induction n with
  | zero =>
    intro rem p hsum hn
    have hrem : rem = 0 := (ceilDiv_eq_zero_iff rem bs hbs).1 hn.symm
    have hp : p = total := by omega
    subst hp
    refine ⟨rfl, ?_, rfl, rfl, rfl, rfl, rfl⟩
    simp [happyEvs, writeSizes]
  | succ n ih =>
    intro rem p hsum hn
    have hrem : 1 ≤ rem := by
      by_contra h
      have : rem = 0 := by omega
      rw [this] at hn
      rw [(ceilDiv_eq_zero_iff 0 bs hbs).2 rfl] at hn
      omega
    have htp : total - p = rem := by omega
    have hstep := ceilDiv_succ_step rem bs hbs hrem
    have hn' : n = ceilDiv (rem - min bs rem) bs := by omega
    obtain ⟨h1, h2, h3, h4, h5, h6, h7⟩ :=
      ih (rem - min bs rem) (p + min bs rem)
        (by have := Nat.min_le_right bs rem; omega) hn'
    have hunf : happyEvs total bs (n + 1) p =
        Ev.gen (min bs rem) :: Ev.write (min bs rem) ::
        Ev.progress (p + min bs rem) total ::
        happyEvs total bs n (p + min bs rem) := by
      simp [happyEvs, htp]
    refine ⟨?_, ?_, ?_, ?_, ?_, ?_, ?_⟩
    · simp [hunf, List.countP_cons, h1, Ev.isWrite]
    · rw [hunf]
      simp only [writeSizes, List.filterMap_cons] at h2 ⊢
      rw [h2, List.range_succ_eq_map]
      simp only [List.map_cons, List.map_map, Nat.zero_mul,
        Nat.sub_zero]
      congr 1
      apply List.map_congr_left
      intro i hi
      simp only [Function.comp_apply, Nat.succ_eq_add_one]
      rcases le_or_lt bs rem with h | h
      · rw [min_eq_left h]
        congr 1
        rw [Nat.add_mul, Nat.one_mul, Nat.sub_sub, Nat.add_comm]
      · have : n = 0 := by
          rw [hn', min_eq_right h.le, Nat.sub_self]
          exact (ceilDiv_eq_zero_iff 0 bs hbs).2 rfl
        rw [this] at hi
        simp at hi
    · simp [hunf, List.countP_cons, h3, Ev.isProgress]
    · simp [hunf, List.countP_cons, h4, Ev.isComplete]
    · simp [hunf, List.countP_cons, h5, Ev.isStopped]
    · simp [hunf, List.countP_cons, h6, Ev.isError]
    · rw [hunf, getLast?_cons_ne_nil (by
        apply List.cons_ne_nil), List.getLast?_cons_cons,
        getLast?_cons_ne_nil (happyEvs_ne_nil total bs n _), h7]

/-- A stop-free, failure-free run follows the expected happy trace and
resolves after completing all `total` trades. -/
lemma runLoop_happy (inp : RunInput) (hbs : 1 ≤ inp.batchSize)
    (hw : ∀ k, inp.writeErr k = none)
    (hs : ∀ k, inp.stopsDuring k = 0) :
    ∀ (fuel p k : ℕ), p ≤ inp.total → inp.total - p < fuel →
      runLoop inp fuel p k false =
        (happyEvs inp.total inp.batchSize
          (ceilDiv (inp.total - p) inp.batchSize) p,
          RunResult.completed inp.total) := by
  intro fuel
  induction fuel with
  | zero => intro p k hp hfuel; omega
  | succ fuel ih =>
    intro p k hp hfuel
    by_cases hc : p < inp.total
    · have hrem : 1 ≤ inp.total - p := by omega
      have hszle : min inp.batchSize (inp.total - p) ≤ inp.total - p :=
        Nat.min_le_right ..
      have hszge : 1 ≤ min inp.batchSize (inp.total - p) := by
        simp only [le_min_iff]
        omega
      have ihr := ih (p + min inp.batchSize (inp.total - p)) (k + 1)
        (by omega) (by omega)
      have hstep := ceilDiv_succ_step (inp.total - p) inp.batchSize
        hbs hrem
      rw [hstep]
      simp only [runLoop, hc, hw k, hs k, if_true, and_self,
        eq_self_iff_true, and_true, List.replicate_zero,
        List.nil_append, ihr, happyEvs]
      have harg : inp.total - (p + min inp.batchSize (inp.total - p)) =
          inp.total - p - min inp.batchSize (inp.total - p) := by
        omega
      rw [harg]
    · have hp' : p = inp.total := by omega
      subst hp'
      have h0 : inp.total - inp.total = 0 := by omega
      rw [h0, (ceilDiv_eq_zero_iff 0 inp.batchSize hbs).2 rfl]
      simp [runLoop, happyEvs]

/-! ## C5: exact batch arithmetic of an uncancelled, error-free run -/

/-- C5: for `total ≥ 0`, `batchSize ≥ 1`, a stop-free, failure-free run
issues exactly `⌈total / batchSize⌉` write calls, all of size
`batchSize` except a final one clipped to `total % batchSize` when
`batchSize` does not divide `total`; one `progress` event fires per
batch, and the run ends with a single final `complete` event whose
snapshot carries `processed = total`, `percentage = 100`,
`estimatedRemainingMs = 0`; for `total = 0` the loop body never runs
and `complete` fires immediately with `processed = 0`. -/
theorem run_happy_batches (total bs : ℕ) (hbs : 1 ≤ bs) :
    (run ⟨total, bs, fun _ => none, fun _ => 0⟩).2 =
      RunResult.completed total ∧
    List.countP Ev.isWrite
      (run ⟨total, bs, fun _ => none, fun _ => 0⟩).1 = ceilDiv total bs ∧
    writeSizes (run ⟨total, bs, fun _ => none, fun _ => 0⟩).1 =
      (List.range (ceilDiv total bs)).map
        (fun i => min bs (total - i * bs)) ∧
    (∀ i, i + 1 < ceilDiv total bs →
      (writeSizes (run ⟨total, bs, fun _ => none,
        fun _ => 0⟩).1).get? i = some bs) ∧
    (total % bs ≠ 0 →
      (writeSizes (run ⟨total, bs, fun _ => none,
        fun _ => 0⟩).1).getLast? = some (total % bs)) ∧
    (total % bs = 0 → ∀ s ∈ writeSizes
      (run ⟨total, bs, fun _ => none, fun _ => 0⟩).1, s = bs) ∧
    List.countP Ev.isProgress
      (run ⟨total, bs, fun _ => none, fun _ => 0⟩).1 = ceilDiv total bs ∧
    List.countP Ev.isComplete
      (run ⟨total, bs, fun _ => none, fun _ => 0⟩).1 = 1 ∧
    (run ⟨total, bs, fun _ => none, fun _ => 0⟩).1.getLast? =
      some (Ev.complete total total 100 0) ∧
    (total = 0 → (run ⟨total, bs, fun _ => none, fun _ => 0⟩).1 =
      [Ev.complete 0 0 100 0]) := by
  have hrun := runLoop_happy ⟨total, bs, fun _ => none, fun _ => 0⟩
    hbs (fun _ => rfl) (fun _ => rfl) (total + 1) 0 0
    (Nat.zero_le _) (by show total - 0 < total + 1; omega)
  have h00 : total - 0 = total := by omega
  rw [h00] at hrun
  rw [run, hrun]
  obtain ⟨h1, h2, h3, h4, h5, h6, h7⟩ :=
    happyEvs_props total bs hbs (ceilDiv total bs) total 0 (by omega)
      rfl
  refine ⟨rfl, h1, h2, ?_, ?_, ?_, h3, h4, h7, ?_⟩
  · intro i hi
    rw [h2, List.get?_map, List.get?_range (by omega)]
    have hle : (i + 2) * bs ≤ total + bs - 1 :=
      (Nat.le_div_iff_mul_le (show 0 < bs by omega)).1 (by
        unfold ceilDiv at hi
        omega)
    rw [Nat.add_mul] at hle
    have : bs ≤ total - i * bs := by omega
    simp [min_eq_left this]
  · intro hmod
    have hq := Nat.div_add_mod total bs
    have hn : ceilDiv total bs = total / bs + 1 := by
      unfold ceilDiv
      have harr : total + bs - 1 = (total % bs - 1) + bs *
          (total / bs + 1) := by
        rw [Nat.mul_add, Nat.mul_one]
        omega
      rw [harr, Nat.add_mul_div_left _ _ (show 0 < bs by omega),
        Nat.div_eq_of_lt (by
          have := Nat.mod_lt total (show 0 < bs by omega)
          omega)]
      omega
    rw [h2, hn, List.range_succ, List.map_append, List.map_cons,
      List.map_nil, List.getLast?_append_cons]
    rw [Nat.mul_comm bs (total / bs)] at hq
    have harg : total - total / bs * bs = total % bs := by omega
    rw [harg]
    have := Nat.mod_lt total (show 0 < bs by omega)
    simp [min_eq_right (le_of_lt this)]
  · intro hmod s hsin
    rw [h2] at hsin
    obtain ⟨i, hiin, hieq⟩ := List.mem_map.1 hsin
    have hin : i < ceilDiv total bs := List.mem_range.1 hiin
    have hq := Nat.div_add_mod total bs
    have hn : ceilDiv total bs = total / bs := by
      unfold ceilDiv
      have harr : total + bs - 1 = (bs - 1) + bs * (total / bs) := by
        omega
      rw [harr, Nat.add_mul_div_left _ _ (show 0 < bs by omega),
        Nat.div_eq_of_lt (by omega)]
      omega
    rw [hn] at hin
    have hmul : (i + 1) * bs ≤ (total / bs) * bs :=
      Nat.mul_le_mul_right bs hin
    rw [Nat.add_mul] at hmul
    have hle : bs ≤ total - i * bs := by
      have : total / bs * bs ≤ total := Nat.div_mul_le_self total bs
      omega
    rw [← hieq, min_eq_left hle]
  · intro h0
    subst h0
    rw [(ceilDiv_eq_zero_iff 0 bs hbs).2 rfl]
    rfl

/-- Witness for C5 on the spec's scenario A numbers
(`total = 100, batchSize = 10`): ten writes, all of size 10, and a
final `complete` with `processed = 100`. -/
theorem run_happy_batches_witness :
    List.countP Ev.isWrite
      (run ⟨100, 10, fun _ => none, fun _ => 0⟩).1 = ceilDiv 100 10 ∧
    (run ⟨100, 10, fun _ => none, fun _ => 0⟩).1.getLast? =
      some (Ev.complete 100 100 100 0) :=
  ⟨(run_happy_batches 100 10 (by decide)).2.1,
   (run_happy_batches 100 10 (by decide)).2.2.2.2.2.2.2.2.1⟩

/-- Witness for C4: the third write (index 2) of a
`total = 100, batchSize = 10` run rejects with error 7; the run fails
with `processed = 20` and exactly one trailing `error` event. -/
theorem run_write_failure_aborts_witness :
    (run ⟨100, 10, fun k => if k = 2 then some 7 else none,
      fun _ => 0⟩).2 = RunResult.failed 7 (2 * 10) ∧
    List.countP Ev.isError (run ⟨100, 10,
      fun k => if k = 2 then some 7 else none, fun _ => 0⟩).1 = 1 :=
  ⟨(run_write_failure_aborts 100 10 2 7 _ (by decide) rfl
      (fun i hi => if_neg (Nat.ne_of_lt hi)) (by decide)).1,
   (run_write_failure_aborts 100 10 2 7 _ (by decide) rfl
      (fun i hi => if_neg (Nat.ne_of_lt hi)) (by decide)).2.1⟩

end Ohlcv
